import Mathlib

/-!
Shallow embedding of the chunking and retrieval-context-assembly engine of the
confluence-chatbot repository (files `module/collect_data.py` and `app.py`),
together with theorems settling the frozen claims about it.

Strings of the Python source are modelled as Lean `String`s; where proofs need
to compute with their characters we pass through `String.data : List Char`
(Python `len` on `str` counts code points, as does `List.length` on the
character list).  Configuration constants keep their source names and values;
functions reading module-level configuration receive it as a trailing
parameter.
-/

/-! ### TextChunker: `split_string_by_markers` (collect_data.py lines 103-128) -/

/-- Python's slice `s[:-3]`, on the character list of a string: all characters
except the last three (the whole string shrinks to empty when it has fewer
than three characters, exactly as in Python). -/
def strip3 (l : List Char) : List Char := l.take (l.length - 3)

/-- Scanning loop of Python's `str.split(sep)` for a non-empty separator
`sep`: left-to-right, non-overlapping matches; `cur` holds the characters of
the current field in reverse.  `fuel` bounds the recursion; `fuel ≥` the
length of the remaining text always suffices because each step consumes at
least one character. -/
def pysplitGo (sep : List Char) : Nat → List Char → List Char → List (List Char)
  | _, [], cur => [cur.reverse]
  | 0, l, cur => [cur.reverse ++ l]
  | fuel + 1, c :: rest, cur =>
    if (c :: rest).take sep.length = sep then
      cur.reverse :: pysplitGo sep fuel ((c :: rest).drop sep.length) []
    else
      pysplitGo sep fuel rest (c :: cur)

/-- Python's `input_string.split(marker)` (line 108 of collect_data.py) on
character lists.  Python raises `ValueError` on an empty separator; that case
is modelled as the identity split and excluded by hypothesis in every theorem
quantifying over markers. -/
def pysplit (sep l : List Char) : List (List Char) :=
  if sep = [] then [l] else pysplitGo sep l.length l []

/-- The `for split in splits:` loop of `split_string_by_markers`
(collect_data.py lines 110-126), including the trailing
`if current_part: result.append(current_part[:-3])`.  The source appends
completed parts to `result`; here each completed part is consed in front of
the parts produced by the rest of the loop, which yields the same order. -/
def chunkLoop (marker : List Char) (min_part_size max_part_size : Nat) :
    List (List Char) → List Char → List (List Char)
  | [], current_part =>
    if current_part = [] then [] else [strip3 current_part]
  | s :: rest, current_part =>
    if current_part.length + s.length + marker.length ≤ max_part_size then
      chunkLoop marker min_part_size max_part_size rest (current_part ++ s ++ marker)
    else if min_part_size ≤ current_part.length then
      strip3 current_part :: chunkLoop marker min_part_size max_part_size rest []
    else
      strip3 (current_part ++ s ++ marker) :: chunkLoop marker min_part_size max_part_size rest []

/-- `split_string_by_markers(input_string, marker, min_part_size, max_part_size)`
from collect_data.py lines 103-128. -/
def split_string_by_markers (input_string marker : String)
    (min_part_size max_part_size : Nat) : List String :=
  (chunkLoop marker.data min_part_size max_part_size
    (pysplit marker.data input_string.data) []).map List.asString

/-- Which branch of `split_string_by_markers` emitted a part: `big` is the
flush when the accumulator already reached `min_part_size` (lines 116-118),
`forced` the force-append flush for an undersized accumulator (lines 120-123),
`final` the flush of a leftover accumulator after the loop (lines 125-126). -/
inductive FlushTag where
  | big
  | forced
  | final
deriving DecidableEq, Repr

/-- One emission of a part by `split_string_by_markers`: the branch that
emitted it, the accumulator `preAcc` before the step, the segment `seg` being
processed at that step (`[]` for the after-loop flush), and the accumulator
contents `flushed` at the moment `result.append(...[:-3])` ran. -/
structure FlushEvent where
  tag : FlushTag
  preAcc : List Char
  seg : List Char
  flushed : List Char
deriving DecidableEq, Repr

/-- Instrumented copy of `chunkLoop`: identical control flow, but it records a
`FlushEvent` wherever the source runs `result.append(current_part[:-3])`,
instead of the stripped part itself. -/
def chunkTagged (marker : List Char) (min_part_size max_part_size : Nat) :
    List (List Char) → List Char → List FlushEvent
  | [], current_part =>
    if current_part = [] then [] else [⟨.final, current_part, [], current_part⟩]
  | s :: rest, current_part =>
    if current_part.length + s.length + marker.length ≤ max_part_size then
      chunkTagged marker min_part_size max_part_size rest (current_part ++ s ++ marker)
    else if min_part_size ≤ current_part.length then
      ⟨.big, current_part, s, current_part⟩ ::
        chunkTagged marker min_part_size max_part_size rest []
    else
      ⟨.forced, current_part, s, current_part ++ s ++ marker⟩ ::
        chunkTagged marker min_part_size max_part_size rest []

/-- The plain loop produces exactly the 3-character-stripped accumulator of
each recorded flush event, in order. -/
lemma chunkLoop_eq_map_chunkTagged (marker : List Char) (mn mx : Nat) :
    ∀ (splits : List (List Char)) (acc : List Char),
      chunkLoop marker mn mx splits acc =
        (chunkTagged marker mn mx splits acc).map (fun ev => strip3 ev.flushed) := by
  intro splits
  induction splits with
  | nil =>
    intro acc
    by_cases h : acc = [] <;> simp [chunkLoop, chunkTagged, h]
  | cons s rest ih =>
    intro acc
    by_cases h1 : acc.length + s.length + marker.length ≤ mx
    · simp [chunkLoop, chunkTagged, h1, ih]
    · by_cases h2 : mn ≤ acc.length <;> simp [chunkLoop, chunkTagged, h1, h2, ih]

/-- Main invariant of the instrumented loop: starting from an accumulator of
length at most `max_part_size`, every non-forced flush flushes an accumulator
of length at most `max_part_size`, and every forced flush happened on an
accumulator shorter than `min_part_size`, flushing that accumulator with the
current segment and the marker force-appended. -/
lemma chunkTagged_invariant (marker : List Char) (mn mx : Nat) :
    ∀ (splits : List (List Char)) (acc : List Char), acc.length ≤ mx →
      ∀ ev ∈ chunkTagged marker mn mx splits acc,
        (ev.tag ≠ .forced → ev.flushed.length ≤ mx) ∧
        (ev.tag = .forced →
          ev.preAcc.length < mn ∧ ev.flushed = ev.preAcc ++ ev.seg ++ marker) := by
  intro splits
  induction splits with
  | nil =>
    intro acc hacc ev hev
    by_cases h : acc = []
    · simp [chunkTagged, h] at hev
    · simp [chunkTagged, h] at hev
      subst hev
      refine ⟨fun _ => hacc, fun htag => by simp at htag⟩
  | cons s rest ih =>
    intro acc hacc ev hev
    by_cases h1 : acc.length + s.length + marker.length ≤ mx
    · rw [chunkTagged, if_pos h1] at hev
      exact ih (acc ++ s ++ marker) (by simp only [List.length_append]; omega) ev hev
    · by_cases h2 : mn ≤ acc.length
      · rw [chunkTagged, if_neg h1, if_pos h2] at hev
        rcases List.mem_cons.mp hev with hev | hev
        · subst hev
          exact ⟨fun _ => hacc, fun htag => by simp at htag⟩
        · exact ih [] (Nat.zero_le mx) ev hev
      · rw [chunkTagged, if_neg h1, if_neg h2] at hev
        rcases List.mem_cons.mp hev with hev | hev
        · subst hev
          exact ⟨fun htag => absurd rfl htag,
            fun _ => ⟨Nat.lt_of_not_le h2, rfl⟩⟩
        · exact ih [] (Nat.zero_le mx) ev hev

/-! ### TableSplitter: `split_table` (collect_data.py lines 59-75) -/

/-- Source configuration constant `max_rows_per_table` (collect_data.py
line 24). -/
def max_rows_per_table : Nat := 30

/-- The slicing comprehension
`[table_df[i:i + max_rows_per_table] for i in range(0, len(table_df), max_rows_per_table)]`
(collect_data.py line 68), as a fueled recursion: repeatedly take the next
`L` rows.  `fuel ≥` the number of rows suffices when `0 < L`, since each step
consumes at least one row. -/
def chunksOfFuel (L : Nat) : Nat → List α → List (List α)
  | _, [] => []
  | 0, _ :: _ => []
  | fuel + 1, x :: xs => (x :: xs).take L :: chunksOfFuel L fuel ((x :: xs).drop L)

/-- `split_table(table_df)` from collect_data.py lines 59-75.  A data frame is
modelled as its header (column names) plus its list of data rows; the source's
`pd.concat([pd.DataFrame(columns = header), chunk])` prepends the original
header to each chunk of rows, i.e. pairs the chunk with `header`.  The source
reads the row limit from the module constant `max_rows_per_table`; it is a
parameter `L` here. -/
def split_table (L : Nat) (header : List String) (rows : List (List String)) :
    List (List String × List (List String)) :=
  (chunksOfFuel L rows.length rows).map (fun chunk => (header, chunk))

lemma ceil_div_step (L n : Nat) (hL : 0 < L) (hn : 0 < n) :
    (n - L + L - 1) / L + 1 = (n + L - 1) / L := by
  have hR : n + L - 1 = (n - 1) + L := by omega
  rw [hR, Nat.add_div_right _ hL]
  rcases le_or_lt n L with h | h
  · have h1 : n - L + L - 1 = L - 1 := by omega
    rw [h1, Nat.div_eq_of_lt (by omega), Nat.div_eq_of_lt (by omega)]
  · have h1 : n - L + L - 1 = n - 1 := by omega
    rw [h1]

lemma chunksOfFuel_length {L : Nat} (hL : 0 < L) :
    ∀ (fuel : Nat) (l : List α), l.length ≤ fuel →
      (chunksOfFuel L fuel l).length = (l.length + L - 1) / L := by
  intro fuel
  induction fuel with
  | zero =>
    intro l hl
    have hnil : l = [] := List.eq_nil_of_length_eq_zero (Nat.le_zero.mp hl)
    subst hnil
    simp [chunksOfFuel, Nat.div_eq_of_lt (Nat.sub_lt hL Nat.one_pos)]
  | succ fuel ih =>
    intro l hl
    cases l with
    | nil => simp [chunksOfFuel, Nat.div_eq_of_lt (Nat.sub_lt hL Nat.one_pos)]
    | cons x xs =>
      have hlen : ((x :: xs).drop L).length ≤ fuel := by
        simp only [List.length_drop, List.length_cons]
        simp only [List.length_cons] at hl
        omega
      have hrec := ih ((x :: xs).drop L) hlen
      simp only [chunksOfFuel, List.length_cons, hrec, List.length_drop]
      exact ceil_div_step L (xs.length + 1) hL (Nat.succ_pos _)

lemma chunksOfFuel_flatten {L : Nat} (hL : 0 < L) :
    ∀ (fuel : Nat) (l : List α), l.length ≤ fuel →
      (chunksOfFuel L fuel l).flatten = l := by
  intro fuel
  induction fuel with
  | zero =>
    intro l hl
    have hnil : l = [] := List.eq_nil_of_length_eq_zero (Nat.le_zero.mp hl)
    subst hnil
    simp [chunksOfFuel]
  | succ fuel ih =>
    intro l hl
    cases l with
    | nil => simp [chunksOfFuel]
    | cons x xs =>
      have hlen : ((x :: xs).drop L).length ≤ fuel := by
        simp only [List.length_drop, List.length_cons]
        simp only [List.length_cons] at hl
        omega
      simp only [chunksOfFuel, List.flatten_cons, ih _ hlen, List.take_append_drop]

lemma chunksOfFuel_chunk_le {L : Nat} :
    ∀ (fuel : Nat) (l : List α), ∀ c ∈ chunksOfFuel L fuel l, c.length ≤ L := by
  intro fuel
  induction fuel with
  | zero =>
    intro l c hc
    cases l <;> simp [chunksOfFuel] at hc
  | succ fuel ih =>
    intro l c hc
    cases l with
    | nil => simp [chunksOfFuel] at hc
    | cons x xs =>
      simp only [chunksOfFuel, List.mem_cons] at hc
      rcases hc with hc | hc
      · subst hc
        simp
      · exact ih _ c hc

/-! ### ContextAssembler: `get_context` (app.py lines 134-164) -/

/-- Source configuration constant `max_tokens_per_context` (app.py line 40). -/
def max_tokens_per_context : Nat := 3490

/-- Source configuration constant `context_message` (app.py line 37). -/
def context_message : String := "Informationen und Anleitungen aus dem Wiki: \n"

/-- One row of the sorted pages data frame iterated by `get_context`
(columns of the persisted table, app.py / collect_data.py line 304). -/
structure PageRow where
  space : String
  title : String
  page_content : String
  link : String
  num_tokens : Nat
deriving DecidableEq, Repr

/-- The `for i in range(len(pages_df))` loop of `get_context` (app.py lines
143-160): stop as soon as `sum_tokens_chosen + page.num_tokens` would exceed
the budget, otherwise select the row and add `page.num_tokens + 4` (the
separator overhead) to the running total.  Returns the selected rows (the
source appends `page.page_content`; the content is projected off afterwards)
and the final running total. -/
def get_context_go (maxTokens : Nat) : List PageRow → Nat → List PageRow × Nat
  | [], sum_tokens_chosen => ([], sum_tokens_chosen)
  | page :: rest, sum_tokens_chosen =>
    if maxTokens < sum_tokens_chosen + page.num_tokens then ([], sum_tokens_chosen)
    else
      let r := get_context_go maxTokens rest (sum_tokens_chosen + page.num_tokens + 4)
      (page :: r.1, r.2)

/-- The rows selected by `get_context` for the given budget, in order. -/
def chosen_pages (maxTokens : Nat) (pages_df_sorted : List PageRow) : List PageRow :=
  (get_context_go maxTokens pages_df_sorted 0).1

/-- `get_context(query, pages_df_sorted)` from app.py lines 134-164 (the
`query` argument is unused by the source body; the budget is the module
constant `max_tokens_per_context`, a parameter here):
`context_message + '\n\n'.join(chosen_pages_content)`. -/
def get_context (maxTokens : Nat) (pages_df_sorted : List PageRow) : String :=
  context_message ++
    String.intercalate "\n\n" ((chosen_pages maxTokens pages_df_sorted).map PageRow.page_content)

/-! ### ConversationMemory: `initialize_memory`, `contruct_prompt`,
`run_chatbot` (app.py lines 76-79, 166-176, 196-211) -/

/-- A chat message as built by app.py: a `role`/`content` dictionary. -/
structure Message where
  role : String
  content : String
deriving DecidableEq, Repr

/-- Source configuration constant `system_message` (app.py lines 31-35). -/
def system_message : String :=
  "Du bist ein freundlicher IT Support Agent. Du erhältst Informationen und Anleitungen aus dem internen Wiki der Firma Simplicity.Nutze diese Informatioen, um die Fragen von Mitarbeiter*innen und Anwender*innen so prägnant, präzise und wahrheitsgetreu wie möglich zu beantworten.Liefere keine allgemeinen Erklärungen, sondern verwende für deine Antworten nur die Informationen und Anleitungen aus dem Wiki, die du in den assistant messages bereit gestellt bekommst. Wenn die Anwort darin nicht enthalten ist, antworte \"Ich weiß es nicht.\" Du kannst die Mitarbeitenden formlos mit \"du\" ansprechen. Halte die Antworten kurz und kanpp."

/-- Source configuration constant `max_messages_to_keep` (app.py line 41). -/
def max_messages_to_keep : Nat := 3

/-- `initialize_memory()` from app.py lines 76-79. -/
def initialize_memory : List Message := [⟨"system", system_message⟩]

/-- `contruct_prompt(query, memory, context)` from app.py lines 166-176 (the
source reads the module constant `max_messages_to_keep`; it is the trailing
parameter here).  Python's `del memory[1:4]` keeps element 0 and the elements
from index 4 on. -/
def contruct_prompt (query : String) (memory : List Message) (context : String)
    (maxKeep : Nat) : List Message :=
  let m := memory ++ [(⟨"assistant", context⟩ : Message), ⟨"user", query⟩]
  if maxKeep < m.length then m.take 1 ++ m.drop 4 else m

/-- One mutation of the conversation memory: a turn (`contruct_prompt`, called
from `ask` inside the `run_chatbot` loop, app.py line 107) or an answer append
(app.py line 211). -/
inductive MemOp where
  | turn (context query : String)
  | answer (text : String)

/-- Apply one memory operation, with the source's configured
`max_messages_to_keep`. -/
def apply_op (memory : List Message) : MemOp → List Message
  | .turn context query => contruct_prompt query memory context max_messages_to_keep
  | .answer text => memory ++ [⟨"assistant", text⟩]

/-- Apply a sequence of memory operations starting from `memory`. -/
def apply_ops (memory : List Message) (ops : List MemOp) : List Message :=
  ops.foldl apply_op memory

/-- The memory produced by the `run_chatbot` loop (app.py lines 185-211) after
a list of complete (context, query, answer) turns: each iteration performs a
`contruct_prompt` turn followed by an answer append, starting from
`initialize_memory`. -/
def run_cycle (memory : List Message) (c : String × String × String) : List Message :=
  apply_op (apply_op memory (.turn c.1 c.2.1)) (.answer c.2.2)

def run_cycles (cycles : List (String × String × String)) : List Message :=
  cycles.foldl run_cycle initialize_memory

/-! ### Theorems for the claims -/

/-- C1: the claim states that concatenating the chunker's parts with the
markers re-inserted reconstructs the input text and that no segment is lost.
The code evaluated at the failing input below refutes this: the segment
`"bbbbbbbb"` triggers the flush branch of `split_string_by_markers` and is
dropped entirely, so the parts are `["aaaa", "cc"]` and re-inserting the
marker yields `"aaaa\n##cc"`, not the input. -/
theorem chunker_roundtrip_failing_input :
    split_string_by_markers "aaaa\n##bbbbbbbb\n##cc" "\n##" 2 10 = ["aaaa", "cc"] ∧
    String.intercalate "\n##" ["aaaa", "cc"] ≠ "aaaa\n##bbbbbbbb\n##cc" :=
  ⟨by decide, by decide⟩

/-- C2: the claim states that the segment that triggers a flush (when the
accumulator already reached `min_part_size`) becomes the start of the next
part.  The code evaluated at the failing input below refutes this: the
triggering segment `"yyyyyyyy"` is dropped, and the next part is `"zz"`,
which does not start with it. -/
theorem chunker_flush_drops_segment_failing_input :
    split_string_by_markers "xxxx\n##yyyyyyyy\n##zz" "\n##" 2 10 = ["xxxx", "zz"] ∧
    "zz".data.take 8 ≠ "yyyyyyyy".data :=
  ⟨by decide, by decide⟩

/-- C3: every part of `split_string_by_markers` not produced by the
forced-append branch has length at most `max_part_size`.  The first conjunct
identifies the returned parts with the stripped accumulators of the recorded
flush events; the second bounds every non-forced event's part. -/
theorem chunker_nonforced_parts_le_max (input_string marker : String)
    (min_part_size max_part_size : Nat) (_hm : marker ≠ "") :
    split_string_by_markers input_string marker min_part_size max_part_size =
      (chunkTagged marker.data min_part_size max_part_size
        (pysplit marker.data input_string.data) []).map
        (fun ev => (strip3 ev.flushed).asString) ∧
    ∀ ev ∈ chunkTagged marker.data min_part_size max_part_size
        (pysplit marker.data input_string.data) [],
      ev.tag ≠ .forced → (strip3 ev.flushed).length ≤ max_part_size := by
  constructor
  · unfold split_string_by_markers
    rw [chunkLoop_eq_map_chunkTagged, List.map_map]
    rfl
  · intro ev hev htag
    have h := (chunkTagged_invariant marker.data min_part_size max_part_size _ []
      (Nat.zero_le _) ev hev).1 htag
    have hlen : (strip3 ev.flushed).length ≤ ev.flushed.length := by
      simp only [strip3, List.length_take]
      omega
    exact le_trans hlen h

theorem chunker_nonforced_parts_le_max_witness :
    (strip3 (FlushEvent.mk .final ['a', '\n', '#', '#'] [] ['a', '\n', '#', '#']).flushed).length ≤ 10 :=
  (chunker_nonforced_parts_le_max "a" "\n##" 0 10 (by decide)).2
    ⟨.final, ['a', '\n', '#', '#'], [], ['a', '\n', '#', '#']⟩ (by decide) (by decide)

/-- C4: in the forced-append branch the segment is appended to the
accumulator together with the marker and the combined part is immediately
flushed, and this happens exactly when the accumulator was below
`min_part_size`; moreover any part longer than `max_part_size` comes from
that branch, with the preceding accumulator below `min_part_size`. -/
theorem chunker_forced_branch_oversize (input_string marker : String)
    (min_part_size max_part_size : Nat) (_hm : marker ≠ "") :
    ∀ ev ∈ chunkTagged marker.data min_part_size max_part_size
        (pysplit marker.data input_string.data) [],
      (ev.tag = .forced →
        ev.preAcc.length < min_part_size ∧
        ev.flushed = ev.preAcc ++ ev.seg ++ marker.data) ∧
      (max_part_size < (strip3 ev.flushed).length →
        ev.tag = .forced ∧ ev.preAcc.length < min_part_size) := by
  intro ev hev
  have h := chunkTagged_invariant marker.data min_part_size max_part_size _ []
    (Nat.zero_le _) ev hev
  refine ⟨h.2, fun hover => ?_⟩
  by_cases htag : ev.tag = .forced
  · exact ⟨htag, (h.2 htag).1⟩
  · exfalso
    have hle := h.1 htag
    have hlen : (strip3 ev.flushed).length ≤ ev.flushed.length := by
      simp only [strip3, List.length_take]
      omega
    omega

theorem chunker_forced_branch_oversize_witness :
    (FlushEvent.mk .forced [] "aaaaaa".data "aaaaaa\n##".data).preAcc.length < 10 ∧
    (FlushEvent.mk .forced [] "aaaaaa".data "aaaaaa\n##".data).flushed =
      (FlushEvent.mk .forced [] "aaaaaa".data "aaaaaa\n##".data).preAcc ++
        (FlushEvent.mk .forced [] "aaaaaa".data "aaaaaa\n##".data).seg ++ "\n##".data :=
  ((chunker_forced_branch_oversize "aaaaaa" "\n##" 10 5 (by decide))
    ⟨.forced, [], "aaaaaa".data, "aaaaaa\n##".data⟩ (by decide)).1 rfl

/-- C10: whenever `split_string_by_markers` flushes a part it removes exactly
the last 3 characters of the accumulated string (`current_part[:-3]`),
whatever the marker's length (first conjunct); and removing the last 3
characters coincides with removing the trailing marker, for every
accumulator that ends in the marker, exactly when the marker is 3 characters
long (second conjunct). -/
theorem chunker_strips_three_chars :
    (∀ (input_string marker : String) (mn mx : Nat), marker ≠ "" →
      split_string_by_markers input_string marker mn mx =
        (chunkTagged marker.data mn mx (pysplit marker.data input_string.data) []).map
          (fun ev => (ev.flushed.take (ev.flushed.length - 3)).asString)) ∧
    (∀ marker : List Char,
      (∀ s : List Char, strip3 (s ++ marker) = s) ↔ marker.length = 3) := by
  constructor
  · intro input_string marker mn mx hm
    unfold split_string_by_markers
    rw [chunkLoop_eq_map_chunkTagged, List.map_map]
    rfl
  · intro marker
    constructor
    · intro h
      have h3 := congrArg List.length (h ['a', 'b', 'c'])
      simp only [strip3, List.length_take, List.length_append] at h3
      simp only [List.length_cons, List.length_nil] at h3
      omega
    · intro h3 s
      simp only [strip3, List.length_append, h3]
      have heq : s.length + 3 - 3 = s.length := by omega
      rw [heq, List.take_left]

theorem chunker_strips_three_chars_witness :
    split_string_by_markers "a" "\n##" 0 10 =
      (chunkTagged "\n##".data 0 10 (pysplit "\n##".data "a".data) []).map
        (fun ev => (ev.flushed.take (ev.flushed.length - 3)).asString) :=
  chunker_strips_three_chars.1 "a" "\n##" 0 10 (by decide)

/-- C9: on a table of `R` rows with row limit `L`, `R > L`, `split_table`
produces exactly `⌈R / L⌉` groups, each carrying the original header and at
most `L` data rows, and the group row counts sum to `R`. -/
theorem split_table_ceil_groups (L : Nat) (header : List String)
    (rows : List (List String)) (hL : 0 < L) (_hR : L < rows.length) :
    (split_table L header rows).length = rows.length ⌈/⌉ L ∧
    (∀ g ∈ split_table L header rows, g.1 = header ∧ g.2.length ≤ L) ∧
    ((split_table L header rows).map (fun g => g.2.length)).sum = rows.length := by
  refine ⟨?_, ?_, ?_⟩
  · rw [Nat.ceilDiv_eq_add_pred_div]
    simp only [split_table, List.length_map]
    exact chunksOfFuel_length hL rows.length rows le_rfl
  · intro g hg
    simp only [split_table, List.mem_map] at hg
    obtain ⟨c, hc, rfl⟩ := hg
    exact ⟨rfl, chunksOfFuel_chunk_le rows.length rows c hc⟩
  · have hflat := chunksOfFuel_flatten hL rows.length rows le_rfl
    calc ((split_table L header rows).map (fun g => g.2.length)).sum
        = ((chunksOfFuel L rows.length rows).map List.length).sum := by
          simp only [split_table, List.map_map]
          rfl
      _ = (chunksOfFuel L rows.length rows).flatten.length :=
          (List.length_flatten _).symm
      _ = rows.length := by rw [hflat]

theorem split_table_ceil_groups_witness :
    (split_table 2 ["h"] [["a"], ["b"], ["c"], ["d"], ["e"]]).length =
      ([["a"], ["b"], ["c"], ["d"], ["e"]] : List (List String)).length ⌈/⌉ 2 ∧
    ((split_table 2 ["h"] [["a"], ["b"], ["c"], ["d"], ["e"]]).map
      (fun g => g.2.length)).sum =
      ([["a"], ["b"], ["c"], ["d"], ["e"]] : List (List String)).length := by
  have h := split_table_ceil_groups 2 ["h"] [["a"], ["b"], ["c"], ["d"], ["e"]]
    (by decide) (by decide)
  exact ⟨h.1, h.2.2⟩

/-- C5 counterexample: the claim states that the sum over selected chunks of
`tokenCount` plus the separator overhead never exceeds the budget.  At budget
10, a single ranked chunk of 10 tokens is selected (the guard only checks
`sum + tokenCount > budget` before adding, then adds `tokenCount + 4`), so
the claimed sum is 14 > 10. -/
theorem context_budget_exceeded_counterexample :
    chosen_pages 10 [⟨"s", "t", "x", "l", 10⟩] = [⟨"s", "t", "x", "l", 10⟩] ∧
    ¬ (((chosen_pages 10 [⟨"s", "t", "x", "l", 10⟩]).map
        (fun p => p.num_tokens + 4)).sum ≤ 10) :=
  ⟨by decide, by decide⟩

lemma get_context_go_take (maxTokens : Nat) :
    ∀ (pages : List PageRow) (s : Nat),
      ∃ n, (get_context_go maxTokens pages s).1 = pages.take n := by
  intro pages
  induction pages with
  | nil => intro s; exact ⟨0, rfl⟩
  | cons p rest ih =>
    intro s
    by_cases h : maxTokens < s + p.num_tokens
    · exact ⟨0, by simp [get_context_go, h]⟩
    · obtain ⟨n, hn⟩ := ih (s + p.num_tokens + 4)
      exact ⟨n + 1, by simp [get_context_go, h, List.take_succ_cons, hn]⟩

lemma get_context_go_sum (maxTokens : Nat) :
    ∀ (pages : List PageRow) (s : Nat), s ≤ maxTokens + 4 →
      ((get_context_go maxTokens pages s).1.map
        (fun p => p.num_tokens + 4)).sum + s ≤ maxTokens + 4 := by
  intro pages
  induction pages with
  | nil =>
    intro s hs
    simp only [get_context_go, List.map_nil, List.sum_nil, Nat.zero_add]
    exact hs
  | cons p rest ih =>
    intro s hs
    by_cases h : maxTokens < s + p.num_tokens
    · simp only [get_context_go, if_pos h, List.map_nil, List.sum_nil, Nat.zero_add]
      exact hs
    · have hs' : s + p.num_tokens + 4 ≤ maxTokens + 4 := by omega
      have hrec := ih (s + p.num_tokens + 4) hs'
      simp only [get_context_go, if_neg h, List.map_cons, List.sum_cons]
      omega

/-- C5, amended: the chunks selected by `get_context` form a prefix of the
ranked order, and the sum over selected chunks of `tokenCount` plus the
separator overhead 4 is at most the budget plus one separator overhead
(`maxTokens + 4`); the original bound `maxTokens` itself can be exceeded, by
at most 4, because the guard checks the sum before the overhead is added. -/
theorem context_selection_bound (maxTokens : Nat) (pages : List PageRow) :
    (∃ n, chosen_pages maxTokens pages = pages.take n) ∧
    ((chosen_pages maxTokens pages).map (fun p => p.num_tokens + 4)).sum ≤
      maxTokens + 4 := by
  constructor
  · exact get_context_go_take maxTokens pages 0
  · have h := get_context_go_sum maxTokens pages 0 (by omega)
    simpa [chosen_pages] using h

lemma take_one_append_drop_four (m : List Message) (h4 : 4 ≤ m.length) :
    (m.take 1 ++ m.drop 4).length + 3 = m.length ∧
    (m.take 1 ++ m.drop 4).head? = m.head? ∧
    ∀ i : Nat, (m.take 1 ++ m.drop 4)[i + 1]? = m[i + 4]? := by
  cases m with
  | nil => simp at h4
  | cons x rest =>
    have hx : (x :: rest).take 1 ++ (x :: rest).drop 4 = x :: rest.drop 3 := by
      simp
    rw [hx]
    simp only [List.length_cons] at h4
    refine ⟨?_, ?_, ?_⟩
    · simp only [List.length_cons, List.length_drop]
      omega
    · simp
    · intro i
      simp only [List.getElem?_cons_succ, List.getElem?_drop]
      congr 1
      omega

/-- C7: `contruct_prompt` appends an assistant message carrying the context
and then a user message carrying the query at the tail (first conjunct, the
non-evicting case returns exactly that list); when the resulting length
exceeds the configured cap (which is at least 3, as the source values 3 and 6
both are), it removes exactly the three entries at positions 1, 2 and 3:
the result is 3 shorter, position 0 is untouched, and every remaining entry
at position `i + 1` is the appended list's entry at position `i + 4`. -/
theorem contruct_prompt_appends_and_evicts (query context : String)
    (memory : List Message) (maxKeep : Nat) (h3 : 3 ≤ maxKeep) :
    ((memory ++ [(⟨"assistant", context⟩ : Message), ⟨"user", query⟩]).length ≤ maxKeep →
      contruct_prompt query memory context maxKeep =
        memory ++ [(⟨"assistant", context⟩ : Message), ⟨"user", query⟩]) ∧
    (maxKeep < (memory ++ [(⟨"assistant", context⟩ : Message), ⟨"user", query⟩]).length →
      (contruct_prompt query memory context maxKeep).length + 3 =
        (memory ++ [(⟨"assistant", context⟩ : Message), ⟨"user", query⟩]).length ∧
      (contruct_prompt query memory context maxKeep).head? =
        (memory ++ [(⟨"assistant", context⟩ : Message), ⟨"user", query⟩]).head? ∧
      ∀ i : Nat, (contruct_prompt query memory context maxKeep)[i + 1]? =
        (memory ++ [(⟨"assistant", context⟩ : Message), ⟨"user", query⟩])[i + 4]?) := by
  constructor
  · intro hle
    simp only [contruct_prompt]
    rw [if_neg (Nat.not_lt.mpr hle)]
  · intro hlt
    have h4 : 4 ≤ (memory ++ [(⟨"assistant", context⟩ : Message), ⟨"user", query⟩]).length := by
      omega
    have hres : contruct_prompt query memory context maxKeep =
        (memory ++ [(⟨"assistant", context⟩ : Message), ⟨"user", query⟩]).take 1 ++
          (memory ++ [(⟨"assistant", context⟩ : Message), ⟨"user", query⟩]).drop 4 := by
      simp only [contruct_prompt]
      rw [if_pos hlt]
    rw [hres]
    exact take_one_append_drop_four _ h4

theorem contruct_prompt_appends_and_evicts_witness :
    (contruct_prompt "q" [⟨"system", "s"⟩, ⟨"assistant", "a"⟩] "c" 3).length + 3 =
      (([⟨"system", "s"⟩, ⟨"assistant", "a"⟩] : List Message) ++
        [(⟨"assistant", "c"⟩ : Message), ⟨"user", "q"⟩]).length ∧
    (contruct_prompt "q" [⟨"system", "s"⟩, ⟨"assistant", "a"⟩] "c" 3).head? =
      (([⟨"system", "s"⟩, ⟨"assistant", "a"⟩] : List Message) ++
        [(⟨"assistant", "c"⟩ : Message), ⟨"user", "q"⟩]).head? := by
  have h := (contruct_prompt_appends_and_evicts "q" "c"
    [⟨"system", "s"⟩, ⟨"assistant", "a"⟩] 3 (by decide)).2 (by decide)
  exact ⟨h.1, h.2.1⟩

/-- C8 counterexample: the claim quantifies over every sequence of
`appendTurn`/`appendAnswer` operations.  After the sequence turn, answer,
answer the memory has 5 entries; the next turn brings it to 7, which exceeds
`max_messages_to_keep = 3` and triggers eviction of entries 1..3, leaving 4
entries — still above the cap.  So the bound "length ≤ maxMessagesToKeep
immediately after any evicting appendTurn" fails for this sequence. -/
theorem memory_eviction_bound_counterexample :
    max_messages_to_keep <
      (apply_ops initialize_memory
        [.turn "c1" "q1", .answer "a1", .answer "a2"]).length + 2 ∧
    ¬ ((apply_ops initialize_memory
        [.turn "c1" "q1", .answer "a1", .answer "a2", .turn "c2" "q2"]).length ≤
        max_messages_to_keep) :=
  ⟨by decide, by decide⟩

lemma contruct_prompt_head (query context : String) (memory : List Message)
    (maxKeep : Nat) (h : memory ≠ []) :
    (contruct_prompt query memory context maxKeep).head? = memory.head? ∧
    contruct_prompt query memory context maxKeep ≠ [] := by
  cases memory with
  | nil => exact absurd rfl h
  | cons x rest =>
    simp only [contruct_prompt]
    by_cases hc : maxKeep <
        ((x :: rest) ++ [(⟨"assistant", context⟩ : Message), ⟨"user", query⟩]).length
    · rw [if_pos hc]
      constructor <;> simp
    · rw [if_neg hc]
      constructor <;> simp

lemma apply_op_head (memory : List Message) (op : MemOp) (h : memory ≠ []) :
    (apply_op memory op).head? = memory.head? ∧ apply_op memory op ≠ [] := by
  cases op with
  | turn context query => exact contruct_prompt_head query context memory _ h
  | answer text =>
    cases memory with
    | nil => exact absurd rfl h
    | cons x rest => constructor <;> simp [apply_op]

lemma apply_ops_head :
    ∀ (ops : List MemOp) (memory : List Message), memory ≠ [] →
      (apply_ops memory ops).head? = memory.head? ∧ apply_ops memory ops ≠ [] := by
  intro ops
  induction ops with
  | nil => intro memory h; exact ⟨rfl, h⟩
  | cons op rest ih =>
    intro memory h
    have h1 := apply_op_head memory op h
    have h2 := ih (apply_op memory op) h1.2
    exact ⟨h2.1.trans h1.1, h2.2⟩

lemma run_cycle_length (memory : List Message) (c : String × String × String)
    (h : memory.length = 1 ∨ memory.length = 4) :
    (run_cycle memory c).length = 4 := by
  have hlen : (memory ++ [(⟨"assistant", c.1⟩ : Message), ⟨"user", c.2.1⟩]).length =
      memory.length + 2 := by
    simp
  rcases h with h | h
  · simp only [run_cycle, apply_op, contruct_prompt]
    rw [if_neg (by rw [hlen, h]; simp [max_messages_to_keep])]
    simp [hlen, h]
  · simp only [run_cycle, apply_op, contruct_prompt]
    rw [if_pos (by rw [hlen, h]; simp [max_messages_to_keep])]
    simp only [List.length_append, List.length_take, List.length_drop, hlen, h,
      List.length_cons, List.length_nil]
    omega

lemma run_cycles_length (cycles : List (String × String × String)) :
    (run_cycles cycles).length = 1 ∨ (run_cycles cycles).length = 4 := by
  suffices h : ∀ (cs : List (String × String × String)) (memory : List Message),
      memory.length = 1 ∨ memory.length = 4 →
      ((cs.foldl run_cycle memory).length = 1 ∨ (cs.foldl run_cycle memory).length = 4)
    by exact h cycles initialize_memory (Or.inl rfl)
  intro cs
  induction cs with
  | nil => intro memory h; exact h
  | cons c rest ih =>
    intro memory h
    exact ih (run_cycle memory c) (Or.inr (run_cycle_length memory c h))

/-- C8, amended: position 0 of the memory always holds the system message
with unchanged content, across every sequence of turn and answer operations
(first conjunct); the length bound holds for the alternating
turn-then-answer pattern that `run_chatbot` actually performs: after the
turn of any such history — in particular after every turn that evicts — the
memory length is at most `max_messages_to_keep` (second conjunct).  For
arbitrary non-alternating sequences the length bound can fail (see the
counterexample). -/
theorem memory_head_invariant_and_alternating_bound :
    (∀ ops : List MemOp,
      (apply_ops initialize_memory ops).head? = some ⟨"system", system_message⟩) ∧
    (∀ (cycles : List (String × String × String)) (context query : String),
      (contruct_prompt query (run_cycles cycles) context max_messages_to_keep).length ≤
        max_messages_to_keep) := by
  constructor
  · intro ops
    have h := apply_ops_head ops initialize_memory (by simp [initialize_memory])
    rw [h.1]
    rfl
  · intro cycles context query
    have hlen : ((run_cycles cycles) ++
        [(⟨"assistant", context⟩ : Message), ⟨"user", query⟩]).length =
        (run_cycles cycles).length + 2 := by
      simp
    rcases run_cycles_length cycles with h | h
    · simp only [contruct_prompt]
      rw [if_neg (by rw [hlen, h]; simp [max_messages_to_keep])]
      rw [hlen, h]
      simp [max_messages_to_keep]
    · simp only [contruct_prompt]
      rw [if_pos (by rw [hlen, h]; simp [max_messages_to_keep])]
      simp only [List.length_append, List.length_take, List.length_drop, hlen, h,
        max_messages_to_keep]
      omega
